import Mathlib

/-
Verification of the simd-filter pixel-transform engine (src/filters.hpp).

Buffers of `unsigned char` samples are modelled as `List Byte` with
`Byte := Fin 256`.  The C++ `throw std::invalid_argument` is modelled by
`Except String`.  The SIMD group loops and their scalar tails are embedded
as the recursions `greyMain`/`greyTail` and `invMain`/`invTail`, mirroring
the source's loop structure (8 greyscale pixels or 16 inverted samples per
group, then a one-at-a-time remainder).  `double` arithmetic in the
Gaussian path is modelled by exact real arithmetic.
-/

set_option maxHeartbeats 1000000

/-- A sample value, as stored in a C++ `unsigned char`. -/
abbrev Byte := Fin 256

/-- Reduction of a natural number to a byte, as `static_cast<unsigned char>`
performs on a non-negative `int`. -/
def byte (n : ℕ) : Byte := ⟨n % 256, by omega⟩

/-- Fixed-point luminance of one RGB pixel:
`(77*r + 150*g + 29*b + 128) >> 8`, then the cast to `unsigned char`
(filters.hpp lines 129-133 and 141-144). -/
def greyByte (r g b : Byte) : Byte :=
  byte ((77 * r.val + 150 * g.val + 29 * b.val + 128) >>> 8)

/-- Greyscale sample of pixel `i`: the source reads `src[idx..idx+2]` with
`idx = i * 3`. -/
def greyAt (src : List Byte) (i : ℕ) : Byte :=
  greyByte (src.getD (i * 3) 0) (src.getD (i * 3 + 1) 0) (src.getD (i * 3 + 2) 0)

/-- Scalar tail loop of `apply_greyscale_rgb_simd`
(`for (; i < pixels; ++i)`, filters.hpp lines 139-145). -/
def greyTail (src : List Byte) (pixels i : ℕ) : List Byte :=
  if h : i < pixels then greyAt src i :: greyTail src pixels (i + 1) else []
termination_by pixels - i
decreasing_by omega

/-- Grouped loop of `apply_greyscale_rgb_simd`: while `i + 8 <= pixels` it
emits the 8 luminance bytes `greys[0..7]` (stored by `_mm_storel_epi64`),
then falls through to the scalar tail (filters.hpp lines 125-145). -/
def greyMain (src : List Byte) (pixels i : ℕ) : List Byte :=
  if h : i + 8 ≤ pixels then
    (List.range 8).map (fun j => greyAt src (i + j)) ++ greyMain src pixels (i + 8)
  else greyTail src pixels i
termination_by pixels - i
decreasing_by omega

/-- `apply_greyscale_rgb_simd` (filters.hpp lines 112-148): reject a buffer
whose length is not a multiple of 3, otherwise produce one luminance byte
per pixel. -/
def apply_greyscale_rgb_simd (bytes : List Byte) : Except String (List Byte) :=
  if bytes.length % 3 ≠ 0 then
    Except.error ("RGB buffer must have a multiple of 3 bytes")
  else
    Except.ok (greyMain bytes (bytes.length / 3) 0)

/-- Byte inversion as `_mm_sub_epi8 all_ones pixels` computes it: a wrapping
byte subtraction `0xFF - b` (filters.hpp lines 160-167). -/
def invByteWrap (b : Byte) : Byte := byte (255 + 256 - b.val)

/-- Byte inversion as the scalar tail computes it: `255 - src[i]` in `int`
arithmetic, stored to an `unsigned char` (filters.hpp line 172). -/
def invByte (b : Byte) : Byte := byte (255 - b.val)

/-- Scalar tail loop of `apply_invert_rgb_simd`
(`for (; i < total; ++i)`, filters.hpp lines 171-173). -/
def invTail (src : List Byte) (total i : ℕ) : List Byte :=
  if h : i < total then invByte (src.getD i 0) :: invTail src total (i + 1) else []
termination_by total - i
decreasing_by omega

/-- Grouped loop of `apply_invert_rgb_simd`: while `i + 16 <= total` it
emits 16 mask-subtracted bytes (one `_mm_sub_epi8` store), then falls
through to the scalar tail (filters.hpp lines 164-173). -/
def invMain (src : List Byte) (total i : ℕ) : List Byte :=
  if h : i + 16 ≤ total then
    (List.range 16).map (fun j => invByteWrap (src.getD (i + j) 0)) ++ invMain src total (i + 16)
  else invTail src total i
termination_by total - i
decreasing_by omega

/-- `apply_invert_rgb_simd` (filters.hpp lines 150-176). -/
def apply_invert_rgb_simd (bytes : List Byte) : Except String (List Byte) :=
  if bytes.length % 3 ≠ 0 then
    Except.error ("RGB buffer must have a multiple of 3 bytes")
  else
    Except.ok (invMain bytes bytes.length 0)

/-- Integer clamp, as `std::clamp(v, lo, hi)` evaluates:
`v < lo ? lo : hi < v ? hi : v`. -/
def iclamp (v lo hi : ℤ) : ℤ := if v < lo then lo else if hi < v then hi else v

/-- Clamped greyscale lookup — the `get_grey` lambda of `apply_laplacian_rgb`
(filters.hpp lines 286-290): clamp both coordinates, then read
`grey[py * w + px]` as an `int`. -/
def get_grey (grey : List Byte) (w h : ℕ) (px py : ℤ) : ℤ :=
  ((grey.getD ((iclamp py 0 ((h : ℤ) - 1)).toNat * w +
      (iclamp px 0 ((w : ℤ) - 1)).toNat) 0).val : ℤ)

/-- Intermediate greyscale buffer of `apply_laplacian_rgb`
(filters.hpp lines 271-278): one luminance byte per pixel, by the same
formula as the greyscale filter. -/
def lapGrey (bytes : List Byte) (pixels : ℕ) : List Byte :=
  (List.range pixels).map (greyAt bytes)

/-- One Laplacian output sample (filters.hpp lines 284-299): the stencil sum
accumulated in source order, rectified by `abs`, clamped to `[0,255]` and
cast to `unsigned char`. -/
def lapAt (grey : List Byte) (w h : ℕ) (x y : ℤ) : Byte :=
  let sum : ℤ :=
    -1 * get_grey grey w h x (y - 1) + -1 * get_grey grey w h (x - 1) y +
      4 * get_grey grey w h x y + -1 * get_grey grey w h (x + 1) y +
      -1 * get_grey grey w h x (y + 1)
  ⟨(iclamp |sum| 0 255).toNat, by
    unfold iclamp
    split_ifs <;> omega⟩

/-- `apply_laplacian_rgb` (filters.hpp lines 258-304): greyscale reduction,
then the edge-clamped 5-point stencil over every pixel in row-major order. -/
def apply_laplacian_rgb (bytes : List Byte) (w h : ℕ) : Except String (List Byte) :=
  if bytes.length % 3 ≠ 0 then
    Except.error ("RGB buffer must have a multiple of 3 bytes")
  else
    let grey := lapGrey bytes (w * h)
    Except.ok ((List.range (h * w)).map (fun p =>
      lapAt grey w h ((p % w : ℕ) : ℤ) ((p / w : ℕ) : ℤ)))

/-- Real clamp, as `std::clamp(v, lo, hi)` evaluates on `double` values. -/
noncomputable def rclamp (v lo hi : ℝ) : ℝ := if v < lo then lo else if hi < v then hi else v

/-- Conversion of a clamped convolution sum to a byte:
`static_cast<unsigned char>(std::clamp(sum, 0.0, 255.0))`, i.e. clamp to
`[0,255]` then truncate toward zero (filters.hpp lines 235-236, 249-250). -/
noncomputable def clampToByte (x : ℝ) : Byte :=
  ⟨⌊rclamp x 0 255⌋₊, by
    have h255 : rclamp x 0 255 ≤ 255 := by
      unfold rclamp
      split_ifs with h1 h2
      · norm_num
      · exact le_rfl
      · linarith
    have hfl : ⌊rclamp x 0 255⌋₊ ≤ ⌊(255 : ℝ)⌋₊ := Nat.floor_le_floor h255
    have h2 : ⌊(255 : ℝ)⌋₊ = 255 := by norm_num
    omega⟩

/-- Unnormalized Gaussian weights (filters.hpp lines 193-198): for index
`i` in `[0, 2*radius]`, with offset `x = i - radius` computed in `int`,
the weight `exp(-(x*x) / (2.0*sigma*sigma))`. -/
noncomputable def gaussian_raw (sigma : ℝ) (radius : ℤ) : List ℝ :=
  (List.range (2 * radius + 1).toNat).map (fun (i : ℕ) =>
    Real.exp (((-(((i : ℤ) - radius) * ((i : ℤ) - radius)) : ℤ) : ℝ) / (2 * sigma * sigma)))

/-- Kernel radius (filters.hpp line 187): `max(1, (int)ceil(sigma * 3.0))`. -/
noncomputable def gaussian_radius (sigma : ℝ) : ℤ := max 1 ⌈sigma * 3.0⌉

/-- `generate_gaussian_kernel` (filters.hpp lines 186-205): the raw weights
divided in place by their sum, returned together with the radius. -/
noncomputable def generate_gaussian_kernel (sigma : ℝ) : List ℝ × ℤ :=
  ((gaussian_raw sigma (gaussian_radius sigma)).map
      (fun k => k / (gaussian_raw sigma (gaussian_radius sigma)).sum),
    gaussian_radius sigma)

/-- Horizontal convolution sum at pixel `(x, y)`, channel `c`
(filters.hpp lines 230-234): for each kernel index `j` (the source's
`k + radius`), sample the original buffer at x-coordinate
`clamp(x + k, 0, w-1)`. -/
noncomputable def hsum (src : List Byte) (w : ℕ) (kernel : List ℝ) (radius : ℤ)
    (x y c : ℕ) : ℝ :=
  ((List.range kernel.length).map (fun (j : ℕ) =>
    kernel.getD j 0 *
      ((src.getD ((y * w + (iclamp ((x : ℤ) + ((j : ℤ) - radius)) 0 ((w : ℤ) - 1)).toNat) * 3
          + c) 0).val : ℝ))).sum

/-- Vertical convolution sum at pixel `(x, y)`, channel `c`
(filters.hpp lines 244-248): sample the intermediate buffer at
y-coordinate `clamp(y + k, 0, h-1)`. -/
noncomputable def vsum (temp : List Byte) (w h : ℕ) (kernel : List ℝ) (radius : ℤ)
    (x y c : ℕ) : ℝ :=
  ((List.range kernel.length).map (fun (j : ℕ) =>
    kernel.getD j 0 *
      ((temp.getD (((iclamp ((y : ℤ) + ((j : ℤ) - radius)) 0 ((h : ℤ) - 1)).toNat * w + x) * 3
          + c) 0).val : ℝ))).sum

/-- Horizontal pass of `apply_gaussian_rgb` (filters.hpp lines 227-239):
the loops over `y < h`, `x < w`, `c < 3` write `temp[(y*w+x)*3+c]` in
row-major order, which is exactly the flat index enumeration below
(`c = idx % 3`, `x = idx / 3 % w`, `y = idx / 3 / w`). -/
noncomputable def horizPass (src : List Byte) (w h : ℕ) (kernel : List ℝ) (radius : ℤ) :
    List Byte :=
  (List.range (h * w * 3)).map (fun idx =>
    clampToByte (hsum src w kernel radius (idx / 3 % w) (idx / 3 / w) (idx % 3)))

/-- Vertical pass of `apply_gaussian_rgb` (filters.hpp lines 241-253). -/
noncomputable def vertPass (temp : List Byte) (w h : ℕ) (kernel : List ℝ) (radius : ℤ) :
    List Byte :=
  (List.range (h * w * 3)).map (fun idx =>
    clampToByte (vsum temp w h kernel radius (idx / 3 % w) (idx / 3 / w) (idx % 3)))

/-- Blur spread (filters.hpp lines 217-219): `sigma = blur_strength / 10.0`,
raised to `0.1` when it falls below that. -/
noncomputable def gaussian_sigma (blur_strength : ℕ) : ℝ :=
  if (blur_strength : ℝ) / 10 < 0.1 then 0.1 else (blur_strength : ℝ) / 10

/-- `apply_gaussian_rgb` (filters.hpp lines 207-256): validate the buffer
length, derive `sigma` from the strength (floored at 0.1), generate the
kernel, then run the horizontal and the vertical pass. -/
noncomputable def apply_gaussian_rgb (bytes : List Byte) (width height blur_strength : ℕ) :
    Except String (List Byte) :=
  if bytes.length % 3 ≠ 0 then
    Except.error ("RGB buffer must have a multiple of 3 bytes")
  else
    Except.ok (vertPass
      (horizPass bytes width height
        (generate_gaussian_kernel (gaussian_sigma blur_strength)).1
        (generate_gaussian_kernel (gaussian_sigma blur_strength)).2)
      width height
      (generate_gaussian_kernel (gaussian_sigma blur_strength)).1
      (generate_gaussian_kernel (gaussian_sigma blur_strength)).2)

lemma getD_range_map {α : Type} (f : ℕ → α) (d : α) (n i : ℕ) (h : i < n) :
    ((List.range n).map f).getD i d = f i := by
  rw [List.getD_eq_getElem?_getD, List.getElem?_map, List.getElem?_range h]
  rfl

lemma getD_range'_map {α : Type} (f : ℕ → α) (d : α) (s n i : ℕ) (h : i < n) :
    ((List.range' s n).map f).getD i d = f (s + i) := by
  rw [List.getD_eq_getElem?_getD, List.getElem?_map,
    List.getElem?_eq_getElem (by simpa using h)]
  simp [List.getElem_range']

lemma range_map_getD {α : Type} (l : List α) (d : α) :
    (List.range l.length).map (fun n => l.getD n d) = l := by
  induction l with
  | nil => simp
  | cons a t ih =>
    rw [List.length_cons, List.range_succ_eq_map, List.map_cons, List.map_map]
    have hc : ((fun n => (a :: t).getD n d) ∘ Nat.succ) = (fun n => t.getD n d) := by
      funext n
      simp [List.getD_cons_succ]
    rw [hc, ih]
    simp [List.getD_cons_zero]

lemma greyTail_eq (src : List Byte) (pixels : ℕ) :
    ∀ i, greyTail src pixels i = (List.range' i (pixels - i)).map (greyAt src) := by
  have key : ∀ n i, pixels - i ≤ n →
      greyTail src pixels i = (List.range' i (pixels - i)).map (greyAt src) := by
    intro n
    induction n with
    | zero =>
      intro i h
      rw [greyTail]
      have h1 : ¬ i < pixels := by omega
      have h2 : pixels - i = 0 := by omega
      simp [h1, h2]
    | succ n ih =>
      intro i h
      rw [greyTail]
      by_cases hip : i < pixels
      · have h1 : pixels - i = (pixels - (i + 1)) + 1 := by omega
        rw [dif_pos hip, ih (i + 1) (by omega), h1, List.range'_succ, List.map_cons]
      · have h2 : pixels - i = 0 := by omega
        simp [hip, h2]
  intro i
  exact key (pixels - i) i le_rfl

lemma greyMain_eq_tail (src : List Byte) (pixels : ℕ) :
    ∀ i, greyMain src pixels i = greyTail src pixels i := by
  have key : ∀ n i, pixels - i ≤ n → greyMain src pixels i = greyTail src pixels i := by
    intro n
    induction n with
    | zero =>
      intro i h
      rw [greyMain]
      have h1 : ¬ i + 8 ≤ pixels := by omega
      simp [h1]
    | succ n ih =>
      intro i h
      rw [greyMain]
      by_cases h8 : i + 8 ≤ pixels
      · rw [dif_pos h8, ih (i + 8) (by omega),
          greyTail_eq src pixels i, greyTail_eq src pixels (i + 8)]
        have hsplit : pixels - i = (pixels - (i + 8)) + 8 := by omega
        rw [hsplit, ← List.range'_append i 8 (pixels - (i + 8)) 1, List.map_append]
        have h8r : List.range' i 8 1 = (List.range 8).map (i + ·) := by
          rw [List.range'_eq_map_range]
        rw [h8r, List.map_map]
        simp [Function.comp, one_mul]
      · rw [dif_neg h8]
  intro i
  exact key (pixels - i) i le_rfl

lemma greyMain_eq (src : List Byte) (pixels i : ℕ) :
    greyMain src pixels i = (List.range' i (pixels - i)).map (greyAt src) := by
  rw [greyMain_eq_tail, greyTail_eq]

lemma invTail_eq (src : List Byte) (total : ℕ) :
    ∀ i, invTail src total i =
      (List.range' i (total - i)).map (fun n => invByte (src.getD n 0)) := by
  have key : ∀ n i, total - i ≤ n → invTail src total i =
      (List.range' i (total - i)).map (fun n => invByte (src.getD n 0)) := by
    intro n
    induction n with
    | zero =>
      intro i h
      rw [invTail]
      have h1 : ¬ i < total := by omega
      have h2 : total - i = 0 := by omega
      simp [h1, h2]
    | succ n ih =>
      intro i h
      rw [invTail]
      by_cases hit : i < total
      · have h1 : total - i = (total - (i + 1)) + 1 := by omega
        rw [dif_pos hit, ih (i + 1) (by omega), h1, List.range'_succ, List.map_cons]
      · have h2 : total - i = 0 := by omega
        simp [hit, h2]
  intro i
  exact key (total - i) i le_rfl

lemma invByteWrap_eq (b : Byte) : invByteWrap b = invByte b := by
  have hb := b.isLt
  unfold invByteWrap invByte byte
  apply Fin.ext
  show (255 + 256 - b.val) % 256 = (255 - b.val) % 256
  omega

lemma invMain_eq_tail (src : List Byte) (total : ℕ) :
    ∀ i, invMain src total i = invTail src total i := by
  have key : ∀ n i, total - i ≤ n → invMain src total i = invTail src total i := by
    intro n
    induction n with
    | zero =>
      intro i h
      rw [invMain]
      have h1 : ¬ i + 16 ≤ total := by omega
      simp [h1]
    | succ n ih =>
      intro i h
      rw [invMain]
      by_cases h16 : i + 16 ≤ total
      · rw [dif_pos h16, ih (i + 16) (by omega),
          invTail_eq src total i, invTail_eq src total (i + 16)]
        have hsplit : total - i = (total - (i + 16)) + 16 := by omega
        rw [hsplit, ← List.range'_append i 16 (total - (i + 16)) 1, List.map_append]
        have h16r : List.range' i 16 1 = (List.range 16).map (i + ·) := by
          rw [List.range'_eq_map_range]
        rw [h16r, List.map_map]
        simp [Function.comp, one_mul, invByteWrap_eq]
      · rw [dif_neg h16]
  intro i
  exact key (total - i) i le_rfl

lemma invMain_eq (src : List Byte) (total i : ℕ) :
    invMain src total i =
      (List.range' i (total - i)).map (fun n => invByte (src.getD n 0)) := by
  rw [invMain_eq_tail, invTail_eq]

lemma iclamp_nonneg (v hi : ℤ) (h : 0 ≤ hi) : 0 ≤ iclamp v 0 hi := by
  unfold iclamp
  split_ifs <;> omega

lemma iclamp_le (v hi : ℤ) (h : 0 ≤ hi) : iclamp v 0 hi ≤ hi := by
  unfold iclamp
  split_ifs <;> omega

lemma iclamp_toNat_lt (v : ℤ) (w : ℕ) (hw : 1 ≤ w) :
    (iclamp v 0 ((w : ℤ) - 1)).toNat < w := by
  have h1 := iclamp_nonneg v ((w : ℤ) - 1) (by omega)
  have h2 := iclamp_le v ((w : ℤ) - 1) (by omega)
  omega

lemma invByte_involutive (b : Byte) : invByte (invByte b) = b := by
  have hb := b.isLt
  unfold invByte byte
  apply Fin.ext
  show (255 - (255 - b.val) % 256) % 256 = b.val
  omega

lemma sum_range_getD_mul (l : List ℝ) (v : ℝ) :
    ((List.range l.length).map (fun j => l.getD j 0 * v)).sum = l.sum * v := by
  induction l with
  | nil => simp
  | cons a t ih =>
    rw [List.length_cons, List.range_succ_eq_map, List.map_cons, List.map_map]
    have hc : ((fun j => (a :: t).getD j 0 * v) ∘ Nat.succ) =
        (fun j => t.getD j 0 * v) := by
      funext n
      simp [List.getD_cons_succ]
    rw [hc, List.sum_cons, ih, List.getD_cons_zero, List.sum_cons, add_mul]

lemma list_sum_map_div (l : List ℝ) (s : ℝ) :
    (l.map (fun k => k / s)).sum = l.sum / s := by
  induction l with
  | nil => simp
  | cons a t ih => simp [ih, add_div]

lemma gaussian_raw_length (σ : ℝ) (r : ℤ) :
    (gaussian_raw σ r).length = (2 * r + 1).toNat := by
  unfold gaussian_raw
  rw [List.length_map, List.length_range]

lemma gaussian_raw_pos (σ : ℝ) (r : ℤ) : ∀ a ∈ gaussian_raw σ r, 0 < a := by
  intro a ha
  obtain ⟨i, _, rfl⟩ := List.mem_map.mp ha
  exact Real.exp_pos _

lemma gaussian_raw_sum_pos (σ : ℝ) (r : ℤ) (hr : 1 ≤ r) :
    0 < (gaussian_raw σ r).sum := by
  apply List.sum_pos _ (gaussian_raw_pos σ r)
  intro he
  have hl : (gaussian_raw σ r).length = 0 := by rw [he]; rfl
  rw [gaussian_raw_length] at hl
  omega

lemma gaussian_radius_ge_one (σ : ℝ) : 1 ≤ gaussian_radius σ := le_max_left 1 _

lemma kernel_sum_one (σ : ℝ) : (generate_gaussian_kernel σ).1.sum = 1 := by
  show ((gaussian_raw σ (gaussian_radius σ)).map
      (fun k => k / (gaussian_raw σ (gaussian_radius σ)).sum)).sum = 1
  rw [list_sum_map_div]
  exact div_self (ne_of_gt (gaussian_raw_sum_pos σ _ (gaussian_radius_ge_one σ)))

lemma clampToByte_natCast (b : Byte) : clampToByte ((b.val : ℝ)) = b := by
  have hb := b.isLt
  apply Fin.ext
  show ⌊rclamp ((b.val : ℝ)) 0 255⌋₊ = b.val
  have h0 : ¬ ((b.val : ℝ) < 0) := not_lt.mpr (Nat.cast_nonneg _)
  have h255 : ¬ ((255 : ℝ) < (b.val : ℝ)) := by
    apply not_lt.mpr
    exact_mod_cast (by omega : b.val ≤ 255)
  unfold rclamp
  rw [if_neg h0, if_neg h255, Nat.floor_natCast]

lemma decode_flat (w y x c : ℕ) (hx : x < w) (hc : c < 3) :
    ((y * w + x) * 3 + c) % 3 = c ∧ ((y * w + x) * 3 + c) / 3 % w = x ∧
      ((y * w + x) * 3 + c) / 3 / w = y := by
  have h2 : ((y * w + x) * 3 + c) / 3 = y * w + x := by omega
  refine ⟨by omega, ?_, ?_⟩
  · rw [h2, add_comm, Nat.add_mul_mod_self_right, Nat.mod_eq_of_lt hx]
  · rw [h2, add_comm, Nat.add_mul_div_right _ _ (by omega : 0 < w),
      Nat.div_eq_of_lt hx, zero_add]

lemma flat_lt (w h y x c : ℕ) (hx : x < w) (hy : y < h) (hc : c < 3) :
    (y * w + x) * 3 + c < w * h * 3 := by
  have h1 : y * w + x < h * w := by
    calc y * w + x < y * w + w := by omega
    _ = (y + 1) * w := by ring
    _ ≤ h * w := Nat.mul_le_mul_right w (by omega)
  have h2 : w * h = h * w := Nat.mul_comm w h
  omega

lemma hsum_uniform (src : List Byte) (w h : ℕ) (kernel : List ℝ) (radius : ℤ)
    (pix : ℕ → Byte) (hk : kernel.sum = 1) (hlen : src.length = w * h * 3)
    (hu : ∀ i, i < src.length → src.getD i 0 = pix (i % 3))
    (x y c : ℕ) (hx : x < w) (hy : y < h) (hc : c < 3) :
    hsum src w kernel radius x y c = ((pix c).val : ℝ) := by
  unfold hsum
  have hcong : ∀ j ∈ List.range kernel.length,
      kernel.getD j 0 *
        ((src.getD ((y * w + (iclamp ((x : ℤ) + ((j : ℤ) - radius)) 0 ((w : ℤ) - 1)).toNat) * 3
            + c) 0).val : ℝ)
      = kernel.getD j 0 * ((pix c).val : ℝ) := by
    intro j _
    have hw1 : 1 ≤ w := by omega
    have hsx : (iclamp ((x : ℤ) + ((j : ℤ) - radius)) 0 ((w : ℤ) - 1)).toNat < w :=
      iclamp_toNat_lt _ w hw1
    have hidx : (y * w + (iclamp ((x : ℤ) + ((j : ℤ) - radius)) 0 ((w : ℤ) - 1)).toNat) * 3
        + c < src.length := by
      rw [hlen]
      exact flat_lt w h y _ c hsx hy hc
    rw [hu _ hidx]
    have hmod : ((y * w + (iclamp ((x : ℤ) + ((j : ℤ) - radius)) 0 ((w : ℤ) - 1)).toNat) * 3
        + c) % 3 = c := by omega
    rw [hmod]
  rw [List.map_congr_left hcong, sum_range_getD_mul, hk, one_mul]

lemma vsum_uniform (temp : List Byte) (w h : ℕ) (kernel : List ℝ) (radius : ℤ)
    (pix : ℕ → Byte) (hk : kernel.sum = 1) (hlen : temp.length = w * h * 3)
    (hu : ∀ i, i < temp.length → temp.getD i 0 = pix (i % 3))
    (x y c : ℕ) (hx : x < w) (hy : y < h) (hc : c < 3) :
    vsum temp w h kernel radius x y c = ((pix c).val : ℝ) := by
  unfold vsum
  have hcong : ∀ j ∈ List.range kernel.length,
      kernel.getD j 0 *
        ((temp.getD (((iclamp ((y : ℤ) + ((j : ℤ) - radius)) 0 ((h : ℤ) - 1)).toNat * w + x) * 3
            + c) 0).val : ℝ)
      = kernel.getD j 0 * ((pix c).val : ℝ) := by
    intro j _
    have hh1 : 1 ≤ h := by omega
    have hsy : (iclamp ((y : ℤ) + ((j : ℤ) - radius)) 0 ((h : ℤ) - 1)).toNat < h :=
      iclamp_toNat_lt _ h hh1
    have hidx : ((iclamp ((y : ℤ) + ((j : ℤ) - radius)) 0 ((h : ℤ) - 1)).toNat * w + x) * 3
        + c < temp.length := by
      rw [hlen]
      exact flat_lt w h _ x c hx hsy hc
    rw [hu _ hidx]
    have hmod : (((iclamp ((y : ℤ) + ((j : ℤ) - radius)) 0 ((h : ℤ) - 1)).toNat * w + x) * 3
        + c) % 3 = c := by omega
    rw [hmod]
  rw [List.map_congr_left hcong, sum_range_getD_mul, hk, one_mul]

lemma horizPass_length (src : List Byte) (w h : ℕ) (kernel : List ℝ) (radius : ℤ) :
    (horizPass src w h kernel radius).length = h * w * 3 := by
  unfold horizPass
  rw [List.length_map, List.length_range]

lemma vertPass_length (temp : List Byte) (w h : ℕ) (kernel : List ℝ) (radius : ℤ) :
    (vertPass temp w h kernel radius).length = h * w * 3 := by
  unfold vertPass
  rw [List.length_map, List.length_range]

lemma horizPass_getD (src : List Byte) (w h : ℕ) (kernel : List ℝ) (radius : ℤ)
    (i : ℕ) (hi : i < h * w * 3) :
    (horizPass src w h kernel radius).getD i 0 =
      clampToByte (hsum src w kernel radius (i / 3 % w) (i / 3 / w) (i % 3)) :=
  getD_range_map _ _ _ _ hi

lemma vertPass_getD (temp : List Byte) (w h : ℕ) (kernel : List ℝ) (radius : ℤ)
    (i : ℕ) (hi : i < h * w * 3) :
    (vertPass temp w h kernel radius).getD i 0 =
      clampToByte (vsum temp w h kernel radius (i / 3 % w) (i / 3 / w) (i % 3)) :=
  getD_range_map _ _ _ _ hi

lemma dims_pos_of_flat {w h : ℕ} (i : ℕ) (hi : i < h * w * 3) : 0 < w ∧ 0 < h := by
  constructor
  · rcases Nat.eq_zero_or_pos w with h0 | h0
    · subst h0
      simp at hi
    · exact h0
  · rcases Nat.eq_zero_or_pos h with h0 | h0
    · subst h0
      simp at hi
    · exact h0

lemma horizPass_uniform (src : List Byte) (w h : ℕ) (kernel : List ℝ) (radius : ℤ)
    (pix : ℕ → Byte) (hk : kernel.sum = 1) (hlen : src.length = w * h * 3)
    (hu : ∀ i, i < src.length → src.getD i 0 = pix (i % 3)) :
    ∀ i, i < h * w * 3 → (horizPass src w h kernel radius).getD i 0 = pix (i % 3) := by
  intro i hi
  obtain ⟨hw, hh⟩ := dims_pos_of_flat i hi
  rw [horizPass_getD src w h kernel radius i hi]
  have hi3 : i / 3 < h * w := by omega
  have hx : i / 3 % w < w := Nat.mod_lt _ hw
  have hy : i / 3 / w < h := (Nat.div_lt_iff_lt_mul hw).mpr (by omega)
  rw [hsum_uniform src w h kernel radius pix hk hlen hu _ _ _ hx hy (by omega)]
  exact clampToByte_natCast _

lemma vertPass_uniform (temp : List Byte) (w h : ℕ) (kernel : List ℝ) (radius : ℤ)
    (pix : ℕ → Byte) (hk : kernel.sum = 1) (hlen : temp.length = w * h * 3)
    (hu : ∀ i, i < temp.length → temp.getD i 0 = pix (i % 3)) :
    ∀ i, i < h * w * 3 → (vertPass temp w h kernel radius).getD i 0 = pix (i % 3) := by
  intro i hi
  obtain ⟨hw, hh⟩ := dims_pos_of_flat i hi
  rw [vertPass_getD temp w h kernel radius i hi]
  have hi3 : i / 3 < h * w := by omega
  have hx : i / 3 % w < w := Nat.mod_lt _ hw
  have hy : i / 3 / w < h := (Nat.div_lt_iff_lt_mul hw).mpr (by omega)
  rw [vsum_uniform temp w h kernel radius pix hk hlen hu _ _ _ hx hy (by omega)]
  exact clampToByte_natCast _

lemma greyByte_val (r g b : Byte) :
    (greyByte r g b).val = (77 * r.val + 150 * g.val + 29 * b.val + 128) >>> 8 := by
  have hr := r.isLt
  have hg := g.isLt
  have hb := b.isLt
  have hdiv : (77 * r.val + 150 * g.val + 29 * b.val + 128) >>> 8 =
      (77 * r.val + 150 * g.val + 29 * b.val + 128) / 256 := by
    rw [Nat.shiftRight_eq_div_pow]
  unfold greyByte byte
  show ((77 * r.val + 150 * g.val + 29 * b.val + 128) >>> 8) % 256 = _
  rw [hdiv]
  omega

lemma invByte_val (b : Byte) : (invByte b).val = 255 - b.val := by
  have hb := b.isLt
  unfold invByte byte
  show (255 - b.val) % 256 = 255 - b.val
  omega

lemma grey_red_eval : apply_greyscale_rgb_simd [(255 : Byte), 0, 0] = Except.ok [(77 : Byte)] := by
  unfold apply_greyscale_rgb_simd
  rw [if_neg (by decide), greyMain_eq]
  exact congrArg Except.ok (by decide)

lemma inv_red_eval :
    apply_invert_rgb_simd [(255 : Byte), 0, 0] = Except.ok [(0 : Byte), 255, 255] := by
  unfold apply_invert_rgb_simd
  rw [if_neg (by decide), invMain_eq]
  exact congrArg Except.ok (by decide)

lemma cell_lt (w h y x : ℕ) (hx : x < w) (hy : y < h) : y * w + x < w * h := by
  have h1 : y * w + x < (y + 1) * w := by
    have : (y + 1) * w = y * w + w := by ring
    omega
  have h2 : (y + 1) * w ≤ h * w := Nat.mul_le_mul_right w (by omega)
  have h3 : h * w = w * h := Nat.mul_comm h w
  omega

lemma decode_cell (w y x : ℕ) (hx : x < w) :
    (y * w + x) % w = x ∧ (y * w + x) / w = y := by
  constructor
  · rw [add_comm, Nat.add_mul_mod_self_right, Nat.mod_eq_of_lt hx]
  · rw [add_comm, Nat.add_mul_div_right _ _ (by omega : 0 < w),
      Nat.div_eq_of_lt hx, zero_add]

lemma clampToByte_val (x : ℝ) : (clampToByte x).val = ⌊rclamp x 0 255⌋₊ := rfl

lemma lapAt_le (grey : List Byte) (w h : ℕ) (x y : ℤ) : (lapAt grey w h x y).val ≤ 255 := by
  unfold lapAt
  show (iclamp _ 0 255).toNat ≤ 255
  have h1 := iclamp_le (|(-1 * get_grey grey w h x (y - 1) + -1 * get_grey grey w h (x - 1) y +
      4 * get_grey grey w h x y + -1 * get_grey grey w h (x + 1) y +
      -1 * get_grey grey w h x (y + 1))|) 255 (by omega)
  omega

lemma lapGrey_uniform (bytes : List Byte) (w h : ℕ) (pix : ℕ → Byte)
    (hlen : bytes.length = w * h * 3)
    (hu : ∀ i, i < bytes.length → bytes.getD i 0 = pix (i % 3)) :
    ∀ i, i < w * h → (lapGrey bytes (w * h)).getD i 0 = greyByte (pix 0) (pix 1) (pix 2) := by
  intro i hi
  unfold lapGrey
  rw [getD_range_map _ _ _ _ hi]
  unfold greyAt
  have h0 : i * 3 < bytes.length := by
    rw [hlen]
    omega
  have h1 : i * 3 + 1 < bytes.length := by
    rw [hlen]
    omega
  have h2 : i * 3 + 2 < bytes.length := by
    rw [hlen]
    omega
  rw [hu _ h0, hu _ h1, hu _ h2]
  have e0 : (i * 3) % 3 = 0 := by omega
  have e1 : (i * 3 + 1) % 3 = 1 := by omega
  have e2 : (i * 3 + 2) % 3 = 2 := by omega
  rw [e0, e1, e2]

lemma get_grey_uniform (grey : List Byte) (w h : ℕ) (g0 : Byte)
    (huni : ∀ i, i < w * h → grey.getD i 0 = g0) (hw : 1 ≤ w) (hh : 1 ≤ h)
    (px py : ℤ) : get_grey grey w h px py = (g0.val : ℤ) := by
  unfold get_grey
  have hpy : (iclamp py 0 ((h : ℤ) - 1)).toNat < h := iclamp_toNat_lt py h hh
  have hpx : (iclamp px 0 ((w : ℤ) - 1)).toNat < w := iclamp_toNat_lt px w hw
  have hidx := cell_lt w h _ _ hpx hpy
  rw [huni _ hidx]

lemma iclamp_zero : ∀ v : ℤ, iclamp v 0 0 = 0 := by
  intro v
  unfold iclamp
  split_ifs <;> omega

lemma lapAt_uniform (grey : List Byte) (w h : ℕ) (g0 : Byte)
    (huni : ∀ i, i < w * h → grey.getD i 0 = g0) (hw : 1 ≤ w) (hh : 1 ≤ h)
    (x y : ℤ) : lapAt grey w h x y = 0 := by
  unfold lapAt
  have hg : ∀ px py : ℤ, get_grey grey w h px py = (g0.val : ℤ) :=
    get_grey_uniform grey w h g0 huni hw hh
  apply Fin.ext
  show (iclamp _ 0 255).toNat = (0 : Byte).val
  rw [hg, hg, hg, hg, hg]
  have hz : -1 * ((g0.val : ℤ)) + -1 * ((g0.val : ℤ)) + 4 * ((g0.val : ℤ)) +
      -1 * ((g0.val : ℤ)) + -1 * ((g0.val : ℤ)) = 0 := by ring
  rw [hz]
  show (iclamp |(0 : ℤ)| 0 255).toNat = 0
  rw [abs_zero]
  unfold iclamp
  split_ifs <;> omega

lemma gaussian_sigma_eq_max (s : ℕ) :
    gaussian_sigma s = max ((s : ℝ) / 10) 0.1 := by
  unfold gaussian_sigma
  split_ifs with h1
  · exact (max_eq_right h1.le).symm
  · exact (max_eq_left (not_lt.mp h1)).symm

lemma gaussian_sigma_pos (s : ℕ) : 0 < gaussian_sigma s := by
  rw [gaussian_sigma_eq_max]
  have h1 : (0 : ℝ) < 0.1 := by norm_num
  exact lt_of_lt_of_le h1 (le_max_right _ _)

lemma generate_kernel_eq (σ : ℝ) :
    (generate_gaussian_kernel σ).1 =
      (List.range (2 * gaussian_radius σ + 1).toNat).map (fun (i : ℕ) =>
        Real.exp (((-(((i : ℤ) - gaussian_radius σ) * ((i : ℤ) - gaussian_radius σ)) : ℤ) : ℝ) /
            (2 * σ * σ)) / (gaussian_raw σ (gaussian_radius σ)).sum) := by
  show (gaussian_raw σ (gaussian_radius σ)).map _ = _
  unfold gaussian_raw
  rw [List.map_map]
  rfl

/-- C10: in greyscale and invert the grouped (vectorized) path and the
scalar tail path compute identical byte values — the grouped entry
functions `greyMain`/`invMain` and the tails `greyTail`/`invTail` are all
extensionally equal to the scalar per-sample formula (`greyAt`, resp.
`255 - b`), and the mask-subtract of a byte equals the scalar subtraction. -/
theorem C10_group_and_tail_paths_agree :
    ∀ (src : List Byte) (pixels total i : ℕ) (b : Byte),
      greyMain src pixels i = (List.range' i (pixels - i)).map (greyAt src) ∧
      greyTail src pixels i = (List.range' i (pixels - i)).map (greyAt src) ∧
      invMain src total i = (List.range' i (total - i)).map (fun n => invByte (src.getD n 0)) ∧
      invTail src total i = (List.range' i (total - i)).map (fun n => invByte (src.getD n 0)) ∧
      invByteWrap b = invByte b :=
  fun src pixels total i b =>
    ⟨greyMain_eq src pixels i, greyTail_eq src pixels i, invMain_eq src total i,
      invTail_eq src total i, invByteWrap_eq b⟩

/-- C7 counterexample: the greyscale of the single red pixel `[255,0,0]`
is `[77]` — `(77*255+128) >> 8 = 19763 >> 8 = 77` — so the claimed output
`[76]` is wrong. -/
theorem C7_red_pixel_counterexample :
    ¬ (apply_greyscale_rgb_simd [(255 : Byte), 0, 0] = Except.ok [(76 : Byte)]) := by
  intro hcontra
  rw [grey_red_eval] at hcontra
  have h2 := Except.ok.inj hcontra
  exact absurd h2 (by decide)

/-- C7 as amended: greyscale of `[255,0,0]` yields `[77]`, and invert of
`[255,0,0]` yields `[0,255,255]`. -/
theorem C7_red_pixel_amended :
    apply_greyscale_rgb_simd [(255 : Byte), 0, 0] = Except.ok [(77 : Byte)] ∧
    apply_invert_rgb_simd [(255 : Byte), 0, 0] = Except.ok [(0 : Byte), 255, 255] :=
  ⟨grey_red_eval, inv_red_eval⟩

/-- C1: on a buffer whose length is a multiple of 3, greyscale succeeds
with `len/3` samples, each equal to `(77*R + 150*G + 29*B + 128) >> 8` for
its source pixel; full white maps to 255 and full black to 0. -/
theorem C1_greyscale_functional (bytes : List Byte) (h3 : bytes.length % 3 = 0) :
    ∃ out, apply_greyscale_rgb_simd bytes = Except.ok out ∧
      out.length = bytes.length / 3 ∧
      (∀ i, i < bytes.length / 3 →
        out.getD i 0 = greyByte (bytes.getD (i * 3) 0) (bytes.getD (i * 3 + 1) 0)
            (bytes.getD (i * 3 + 2) 0) ∧
        (out.getD i 0).val = (77 * (bytes.getD (i * 3) 0).val +
            150 * (bytes.getD (i * 3 + 1) 0).val +
            29 * (bytes.getD (i * 3 + 2) 0).val + 128) >>> 8) ∧
      greyByte 255 255 255 = 255 ∧ greyByte 0 0 0 = 0 := by
  refine ⟨greyMain bytes (bytes.length / 3) 0, ?_, ?_, ?_, by decide, by decide⟩
  · unfold apply_greyscale_rgb_simd
    rw [if_neg (by omega)]
  · rw [greyMain_eq, Nat.sub_zero, List.length_map, List.length_range']
  · intro i hi
    rw [greyMain_eq, Nat.sub_zero, getD_range'_map _ _ _ _ _ hi, Nat.zero_add]
    exact ⟨rfl, greyByte_val _ _ _⟩

/-- Witness for C1 at the white pixel `[255,255,255]`. -/
theorem C1_greyscale_functional_witness :
    ([(255 : Byte), 255, 255].length % 3 = 0) ∧
    (∃ out, apply_greyscale_rgb_simd [(255 : Byte), 255, 255] = Except.ok out ∧
      out.length = [(255 : Byte), 255, 255].length / 3 ∧
      (∀ i, i < [(255 : Byte), 255, 255].length / 3 →
        out.getD i 0 = greyByte ([(255 : Byte), 255, 255].getD (i * 3) 0)
            ([(255 : Byte), 255, 255].getD (i * 3 + 1) 0)
            ([(255 : Byte), 255, 255].getD (i * 3 + 2) 0) ∧
        (out.getD i 0).val = (77 * ([(255 : Byte), 255, 255].getD (i * 3) 0).val +
            150 * ([(255 : Byte), 255, 255].getD (i * 3 + 1) 0).val +
            29 * ([(255 : Byte), 255, 255].getD (i * 3 + 2) 0).val + 128) >>> 8) ∧
      greyByte 255 255 255 = 255 ∧ greyByte 0 0 0 = 0) :=
  ⟨by decide, C1_greyscale_functional [(255 : Byte), 255, 255] (by decide)⟩

/-- C6: on a valid buffer, invert succeeds with the same length, every
sample is `255 - in`, and inverting twice restores the original buffer. -/
theorem C6_invert_involution (bytes : List Byte) (h3 : bytes.length % 3 = 0) :
    ∃ out, apply_invert_rgb_simd bytes = Except.ok out ∧
      out.length = bytes.length ∧
      (∀ i, i < bytes.length →
        out.getD i 0 = invByte (bytes.getD i 0) ∧
        (out.getD i 0).val = 255 - (bytes.getD i 0).val) ∧
      apply_invert_rgb_simd out = Except.ok bytes := by
  have hout : invMain bytes bytes.length 0 =
      (List.range' 0 bytes.length).map (fun n => invByte (bytes.getD n 0)) := by
    rw [invMain_eq, Nat.sub_zero]
  have hlen : (invMain bytes bytes.length 0).length = bytes.length := by
    rw [hout, List.length_map, List.length_range']
  have hget : ∀ i, i < bytes.length →
      (invMain bytes bytes.length 0).getD i 0 = invByte (bytes.getD i 0) := by
    intro i hi
    rw [hout, getD_range'_map _ _ _ _ _ hi, Nat.zero_add]
  refine ⟨invMain bytes bytes.length 0, ?_, hlen, ?_, ?_⟩
  · unfold apply_invert_rgb_simd
    rw [if_neg (by omega)]
  · intro i hi
    refine ⟨hget i hi, ?_⟩
    rw [hget i hi, invByte_val]
  · unfold apply_invert_rgb_simd
    rw [if_neg (by omega)]
    congr 1
    rw [invMain_eq, Nat.sub_zero, hlen]
    have hcong : ∀ n ∈ List.range' 0 bytes.length,
        invByte ((invMain bytes bytes.length 0).getD n 0) = bytes.getD n 0 := by
      intro n hn
      have hn' : n < bytes.length := by
        rw [List.mem_range'_1] at hn
        omega
      rw [hget n hn', invByte_involutive]
    rw [List.map_congr_left hcong]
    have hr : List.range' 0 bytes.length = List.range bytes.length :=
      (List.range_eq_range' bytes.length).symm
    rw [hr]
    exact range_map_getD bytes 0

/-- Witness for C6 on the buffer `[1, 2, 3]`. -/
theorem C6_invert_involution_witness :
    (([(1 : Byte), 2, 3] : List Byte).length % 3 = 0) ∧
    (∃ out, apply_invert_rgb_simd [(1 : Byte), 2, 3] = Except.ok out ∧
      out.length = ([(1 : Byte), 2, 3] : List Byte).length ∧
      (∀ i, i < ([(1 : Byte), 2, 3] : List Byte).length →
        out.getD i 0 = invByte ([(1 : Byte), 2, 3].getD i 0) ∧
        (out.getD i 0).val = 255 - ([(1 : Byte), 2, 3].getD i 0).val) ∧
      apply_invert_rgb_simd out = Except.ok [(1 : Byte), 2, 3]) :=
  ⟨by decide, C6_invert_involution [(1 : Byte), 2, 3] (by decide)⟩

/-- C9: clamped sampling coordinates always land inside the image, so the
flat indices used by the blur passes and the Laplacian stencil are within
the buffers; on a 1-by-1 image every clamped lookup hits the single pixel. -/
theorem C9_no_out_of_bounds (w h x y c : ℕ) (v px py : ℤ)
    (hw : 1 ≤ w) (hh : 1 ≤ h) (hx : x < w) (hy : y < h) (hc : c < 3) :
    (0 ≤ iclamp v 0 ((w : ℤ) - 1) ∧ iclamp v 0 ((w : ℤ) - 1) ≤ (w : ℤ) - 1) ∧
    (y * w + (iclamp v 0 ((w : ℤ) - 1)).toNat) * 3 + c < w * h * 3 ∧
    ((iclamp v 0 ((h : ℤ) - 1)).toNat * w + x) * 3 + c < w * h * 3 ∧
    (iclamp py 0 ((h : ℤ) - 1)).toNat * w + (iclamp px 0 ((w : ℤ) - 1)).toNat < w * h ∧
    (∀ grey : List Byte, grey.length = 1 →
      get_grey grey 1 1 px py = ((grey.getD 0 0).val : ℤ)) ∧
    iclamp v 0 ((1 : ℤ) - 1) = 0 := by
  refine ⟨⟨iclamp_nonneg v _ (by omega), iclamp_le v _ (by omega)⟩, ?_, ?_, ?_, ?_, ?_⟩
  · exact flat_lt w h y _ c (iclamp_toNat_lt v w hw) hy hc
  · exact flat_lt w h _ x c hx (iclamp_toNat_lt v h hh) hc
  · exact cell_lt w h _ _ (iclamp_toNat_lt px w hw) (iclamp_toNat_lt py h hh)
  · intro grey _
    unfold get_grey
    have h1 : ((1 : ℕ) : ℤ) - 1 = 0 := by norm_num
    rw [h1, iclamp_zero, iclamp_zero]
    norm_num
  · have h1 : ((1 : ℤ) - 1) = 0 := by norm_num
    rw [h1]
    exact iclamp_zero v

/-- Witness for C9 at `w = 2`, `h = 3`, `x = 1`, `y = 2`, `c = 2`,
`v = 5`, `px = -7`, `py = 99`. -/
theorem C9_no_out_of_bounds_witness :
    (0 ≤ iclamp 5 0 (((2 : ℕ) : ℤ) - 1) ∧ iclamp 5 0 (((2 : ℕ) : ℤ) - 1) ≤ ((2 : ℕ) : ℤ) - 1) ∧
    (2 * 2 + (iclamp 5 0 (((2 : ℕ) : ℤ) - 1)).toNat) * 3 + 2 < 2 * 3 * 3 ∧
    ((iclamp 5 0 (((3 : ℕ) : ℤ) - 1)).toNat * 2 + 1) * 3 + 2 < 2 * 3 * 3 ∧
    (iclamp 99 0 (((3 : ℕ) : ℤ) - 1)).toNat * 2 + (iclamp (-7) 0 (((2 : ℕ) : ℤ) - 1)).toNat
      < 2 * 3 ∧
    (∀ grey : List Byte, grey.length = 1 →
      get_grey grey 1 1 (-7) 99 = ((grey.getD 0 0).val : ℤ)) ∧
    iclamp 5 0 ((1 : ℤ) - 1) = 0 :=
  C9_no_out_of_bounds 2 3 1 2 2 5 (-7) 99 (by decide) (by decide) (by decide)
    (by decide) (by decide)

/-- C3: on a buffer with `len = w*h*3`, the Laplacian succeeds with one
sample per pixel, each equal to
`clamp(|4*center - top - bottom - left - right|, 0, 255)` over the
greyscale intermediate with edge-clamped neighbors; every sample is at
most 255, and a uniform-color input yields an all-zero edge map. -/
theorem C3_laplacian_functional (bytes : List Byte) (w h : ℕ)
    (hlen : bytes.length = w * h * 3) :
    ∃ out, apply_laplacian_rgb bytes w h = Except.ok out ∧
      out.length = w * h ∧
      (∀ x y, x < w → y < h →
        ((out.getD (y * w + x) 0).val : ℤ) =
          iclamp |4 * get_grey (lapGrey bytes (w * h)) w h (x : ℤ) (y : ℤ) -
              get_grey (lapGrey bytes (w * h)) w h (x : ℤ) ((y : ℤ) - 1) -
              get_grey (lapGrey bytes (w * h)) w h (x : ℤ) ((y : ℤ) + 1) -
              get_grey (lapGrey bytes (w * h)) w h ((x : ℤ) - 1) (y : ℤ) -
              get_grey (lapGrey bytes (w * h)) w h ((x : ℤ) + 1) (y : ℤ)| 0 255) ∧
      (∀ b ∈ out, b.val ≤ 255) ∧
      (∀ pix : ℕ → Byte, (∀ i, i < bytes.length → bytes.getD i 0 = pix (i % 3)) →
        ∀ j, j < w * h → out.getD j 0 = 0) := by
  refine ⟨(List.range (h * w)).map (fun p =>
      lapAt (lapGrey bytes (w * h)) w h ((p % w : ℕ) : ℤ) ((p / w : ℕ) : ℤ)), ?_, ?_, ?_, ?_, ?_⟩
  · unfold apply_laplacian_rgb
    rw [if_neg (by omega)]
  · rw [List.length_map, List.length_range, Nat.mul_comm h w]
  · intro x y hx hy
    have hcomm : h * w = w * h := Nat.mul_comm h w
    have hcell : y * w + x < h * w := by
      have h2 := cell_lt w h y x hx hy
      omega
    rw [getD_range_map _ _ _ _ hcell]
    obtain ⟨hm, hd⟩ := decode_cell w y x hx
    rw [hm, hd]
    unfold lapAt
    show (((iclamp _ 0 255).toNat : ℤ)) = _
    rw [Int.toNat_of_nonneg (iclamp_nonneg _ _ (by omega))]
    have hsum : -1 * get_grey (lapGrey bytes (w * h)) w h (x : ℤ) ((y : ℤ) - 1) +
        -1 * get_grey (lapGrey bytes (w * h)) w h ((x : ℤ) - 1) (y : ℤ) +
        4 * get_grey (lapGrey bytes (w * h)) w h (x : ℤ) (y : ℤ) +
        -1 * get_grey (lapGrey bytes (w * h)) w h ((x : ℤ) + 1) (y : ℤ) +
        -1 * get_grey (lapGrey bytes (w * h)) w h (x : ℤ) ((y : ℤ) + 1) =
        4 * get_grey (lapGrey bytes (w * h)) w h (x : ℤ) (y : ℤ) -
          get_grey (lapGrey bytes (w * h)) w h (x : ℤ) ((y : ℤ) - 1) -
          get_grey (lapGrey bytes (w * h)) w h (x : ℤ) ((y : ℤ) + 1) -
          get_grey (lapGrey bytes (w * h)) w h ((x : ℤ) - 1) (y : ℤ) -
          get_grey (lapGrey bytes (w * h)) w h ((x : ℤ) + 1) (y : ℤ) := by
      ring
    rw [hsum]
  · intro b hb
    obtain ⟨p, _, rfl⟩ := List.mem_map.mp hb
    exact lapAt_le _ _ _ _ _
  · intro pix hupix j hj
    have hw : 0 < w := by
      rcases Nat.eq_zero_or_pos w with h0 | h0
      · subst h0
        simp at hj
      · exact h0
    have hh : 0 < h := by
      rcases Nat.eq_zero_or_pos h with h0 | h0
      · subst h0
        simp at hj
      · exact h0
    have hjh : j < h * w := by
      have hcomm : h * w = w * h := Nat.mul_comm h w
      omega
    rw [getD_range_map _ _ _ _ hjh]
    exact lapAt_uniform _ w h (greyByte (pix 0) (pix 1) (pix 2))
      (lapGrey_uniform bytes w h pix hlen hupix) hw hh _ _

/-- Witness for C3 on the 1-by-1 image `[5, 6, 7]`. -/
theorem C3_laplacian_functional_witness :
    (([(5 : Byte), 6, 7] : List Byte).length = 1 * 1 * 3) ∧
    (∃ out, apply_laplacian_rgb [(5 : Byte), 6, 7] 1 1 = Except.ok out ∧
      out.length = 1 * 1 ∧
      (∀ x y, x < 1 → y < 1 →
        ((out.getD (y * 1 + x) 0).val : ℤ) =
          iclamp |4 * get_grey (lapGrey [(5 : Byte), 6, 7] (1 * 1)) 1 1 (x : ℤ) (y : ℤ) -
              get_grey (lapGrey [(5 : Byte), 6, 7] (1 * 1)) 1 1 (x : ℤ) ((y : ℤ) - 1) -
              get_grey (lapGrey [(5 : Byte), 6, 7] (1 * 1)) 1 1 (x : ℤ) ((y : ℤ) + 1) -
              get_grey (lapGrey [(5 : Byte), 6, 7] (1 * 1)) 1 1 ((x : ℤ) - 1) (y : ℤ) -
              get_grey (lapGrey [(5 : Byte), 6, 7] (1 * 1)) 1 1 ((x : ℤ) + 1) (y : ℤ)| 0 255) ∧
      (∀ b ∈ out, b.val ≤ 255) ∧
      (∀ pix : ℕ → Byte,
        (∀ i, i < ([(5 : Byte), 6, 7] : List Byte).length →
          [(5 : Byte), 6, 7].getD i 0 = pix (i % 3)) →
        ∀ j, j < 1 * 1 → out.getD j 0 = 0)) :=
  ⟨by decide, C3_laplacian_functional [(5 : Byte), 6, 7] 1 1 (by decide)⟩

/-- C4: each of the four transforms fails with the invalid-input error
exactly when the buffer length is not a multiple of 3 (the error branch is
taken before any output is built), and on success returns a complete
buffer of the contractual size — for the two spatial filters under the
caller-enforced precondition `len = w*h*3`. -/
theorem C4_error_handling (bytes : List Byte) (w h s : ℕ) :
    (bytes.length % 3 ≠ 0 →
      apply_greyscale_rgb_simd bytes =
        Except.error ("RGB buffer must have a multiple of 3 bytes") ∧
      apply_invert_rgb_simd bytes =
        Except.error ("RGB buffer must have a multiple of 3 bytes") ∧
      apply_gaussian_rgb bytes w h s =
        Except.error ("RGB buffer must have a multiple of 3 bytes") ∧
      apply_laplacian_rgb bytes w h =
        Except.error ("RGB buffer must have a multiple of 3 bytes")) ∧
    (bytes.length % 3 = 0 →
      (∃ o, apply_greyscale_rgb_simd bytes = Except.ok o ∧ o.length = bytes.length / 3) ∧
      (∃ o, apply_invert_rgb_simd bytes = Except.ok o ∧ o.length = bytes.length) ∧
      (bytes.length = w * h * 3 →
        (∃ o, apply_gaussian_rgb bytes w h s = Except.ok o ∧ o.length = bytes.length) ∧
        (∃ o, apply_laplacian_rgb bytes w h = Except.ok o ∧ o.length = w * h))) := by
  constructor
  · intro hne
    refine ⟨?_, ?_, ?_, ?_⟩
    · unfold apply_greyscale_rgb_simd
      rw [if_pos hne]
    · unfold apply_invert_rgb_simd
      rw [if_pos hne]
    · unfold apply_gaussian_rgb
      rw [if_pos hne]
    · unfold apply_laplacian_rgb
      rw [if_pos hne]
  · intro h3
    refine ⟨⟨greyMain bytes (bytes.length / 3) 0, ?_, ?_⟩,
      ⟨invMain bytes bytes.length 0, ?_, ?_⟩, ?_⟩
    · unfold apply_greyscale_rgb_simd
      rw [if_neg (by omega)]
    · rw [greyMain_eq, Nat.sub_zero, List.length_map, List.length_range']
    · unfold apply_invert_rgb_simd
      rw [if_neg (by omega)]
    · rw [invMain_eq, Nat.sub_zero, List.length_map, List.length_range']
    · intro hdims
      constructor
      · refine ⟨vertPass
            (horizPass bytes w h (generate_gaussian_kernel (gaussian_sigma s)).1
              (generate_gaussian_kernel (gaussian_sigma s)).2) w h
            (generate_gaussian_kernel (gaussian_sigma s)).1
            (generate_gaussian_kernel (gaussian_sigma s)).2, ?_, ?_⟩
        · unfold apply_gaussian_rgb
          rw [if_neg (by omega)]
        · rw [vertPass_length, hdims, Nat.mul_comm h w]
      · refine ⟨(List.range (h * w)).map (fun p =>
            lapAt (lapGrey bytes (w * h)) w h ((p % w : ℕ) : ℤ) ((p / w : ℕ) : ℤ)), ?_, ?_⟩
        · unfold apply_laplacian_rgb
          rw [if_neg (by omega)]
        · rw [List.length_map, List.length_range, Nat.mul_comm h w]

/-- Witness for C4 on the buffer `[9, 8, 7]` with a 1-by-1 image shape. -/
theorem C4_error_handling_witness :
    (([(9 : Byte), 8, 7] : List Byte).length % 3 = 0) ∧
    (([(9 : Byte), 8, 7] : List Byte).length = 1 * 1 * 3) ∧
    (∃ o, apply_greyscale_rgb_simd [(9 : Byte), 8, 7] = Except.ok o ∧
      o.length = ([(9 : Byte), 8, 7] : List Byte).length / 3) ∧
    (∃ o, apply_gaussian_rgb [(9 : Byte), 8, 7] 1 1 10 = Except.ok o ∧
      o.length = ([(9 : Byte), 8, 7] : List Byte).length) ∧
    (apply_greyscale_rgb_simd [(0 : Byte)] =
      Except.error ("RGB buffer must have a multiple of 3 bytes")) := by
  refine ⟨by decide, by decide, ?_, ?_, ?_⟩
  · exact ((C4_error_handling [(9 : Byte), 8, 7] 1 1 10).2 (by decide)).1
  · exact (((C4_error_handling [(9 : Byte), 8, 7] 1 1 10).2 (by decide)).2.2 (by decide)).1
  · exact ((C4_error_handling [(0 : Byte)] 1 1 10).1 (by decide)).1

/-- C5: for sigma > 0 the kernel generator returns
`radius = max(1, ceil(3*sigma))` and a weight list of odd length
`2*radius+1` whose entries are the Gaussian weights
`exp(-(i*i)/(2*sigma*sigma))` (offsets `i` in `[-radius, radius]`) divided
by their sum; the kernel is symmetric and sums to exactly 1 in the
real-number model (hence within any floating-point tolerance). -/
theorem C5_kernel_properties (σ : ℝ) (hσ : 0 < σ) :
    (generate_gaussian_kernel σ).2 = max 1 ⌈σ * 3.0⌉ ∧
    1 ≤ (generate_gaussian_kernel σ).2 ∧
    (generate_gaussian_kernel σ).1.length = 2 * (generate_gaussian_kernel σ).2.toNat + 1 ∧
    (∀ i, i < (generate_gaussian_kernel σ).1.length →
      (generate_gaussian_kernel σ).1.getD i 0 =
        Real.exp (((-(((i : ℤ) - (generate_gaussian_kernel σ).2) *
            ((i : ℤ) - (generate_gaussian_kernel σ).2)) : ℤ) : ℝ) / (2 * σ * σ)) /
          (gaussian_raw σ (generate_gaussian_kernel σ).2).sum) ∧
    (∀ i, i < (generate_gaussian_kernel σ).1.length →
      (generate_gaussian_kernel σ).1.getD i 0 =
        (generate_gaussian_kernel σ).1.getD ((generate_gaussian_kernel σ).1.length - 1 - i) 0) ∧
    (generate_gaussian_kernel σ).1.sum = 1 := by
  have hr : 1 ≤ gaussian_radius σ := gaussian_radius_ge_one σ
  have hlen : (generate_gaussian_kernel σ).1.length = (2 * gaussian_radius σ + 1).toNat := by
    rw [generate_kernel_eq, List.length_map, List.length_range]
  refine ⟨rfl, hr, ?_, ?_, ?_, kernel_sum_one σ⟩
  · show (generate_gaussian_kernel σ).1.length = 2 * (gaussian_radius σ).toNat + 1
    rw [hlen]
    omega
  · intro i hi
    rw [hlen] at hi
    show (generate_gaussian_kernel σ).1.getD i 0 =
      Real.exp (((-(((i : ℤ) - gaussian_radius σ) * ((i : ℤ) - gaussian_radius σ)) : ℤ) : ℝ) /
          (2 * σ * σ)) / (gaussian_raw σ (gaussian_radius σ)).sum
    rw [generate_kernel_eq, getD_range_map _ _ _ _ hi]
  · intro i hi
    rw [hlen] at hi
    have hmir : (2 * gaussian_radius σ + 1).toNat - 1 - i < (2 * gaussian_radius σ + 1).toNat := by
      omega
    rw [hlen, generate_kernel_eq, getD_range_map _ _ _ _ hi, getD_range_map _ _ _ _ hmir]
    have hm : ((((2 * gaussian_radius σ + 1).toNat - 1 - i : ℕ)) : ℤ) =
        2 * gaussian_radius σ - (i : ℤ) := by
      omega
    have harg : (-(((((2 * gaussian_radius σ + 1).toNat - 1 - i : ℕ) : ℤ) - gaussian_radius σ) *
          ((((2 * gaussian_radius σ + 1).toNat - 1 - i : ℕ) : ℤ) - gaussian_radius σ)) : ℤ) =
        (-(((i : ℤ) - gaussian_radius σ) * ((i : ℤ) - gaussian_radius σ)) : ℤ) := by
      rw [hm]
      ring
    rw [harg]

/-- Witness for C5 at sigma = 1. -/
theorem C5_kernel_properties_witness :
    (0 : ℝ) < 1 ∧
    ((generate_gaussian_kernel 1).2 = max 1 ⌈(1 : ℝ) * 3.0⌉ ∧
    1 ≤ (generate_gaussian_kernel 1).2 ∧
    (generate_gaussian_kernel 1).1.length = 2 * (generate_gaussian_kernel 1).2.toNat + 1 ∧
    (∀ i, i < (generate_gaussian_kernel 1).1.length →
      (generate_gaussian_kernel 1).1.getD i 0 =
        Real.exp (((-(((i : ℤ) - (generate_gaussian_kernel 1).2) *
            ((i : ℤ) - (generate_gaussian_kernel 1).2)) : ℤ) : ℝ) / (2 * 1 * 1)) /
          (gaussian_raw 1 (generate_gaussian_kernel 1).2).sum) ∧
    (∀ i, i < (generate_gaussian_kernel 1).1.length →
      (generate_gaussian_kernel 1).1.getD i 0 =
        (generate_gaussian_kernel 1).1.getD ((generate_gaussian_kernel 1).1.length - 1 - i) 0) ∧
    (generate_gaussian_kernel 1).1.sum = 1) :=
  ⟨zero_lt_one, C5_kernel_properties 1 zero_lt_one⟩

/-- C2: with `len = w*h*3`, the blur succeeds and is exactly the two-pass
separable convolution with the kernel generated from
`sigma = max(strength/10, 0.1)`: a horizontal pass over the original
buffer (x edge-clamped) into an intermediate buffer, then a vertical pass
over that intermediate (y edge-clamped); every sample is the truncation of
the clamped floating-point sum, so the output has the input's length and
all samples lie in `[0,255]`. -/
theorem C2_gaussian_two_pass (bytes : List Byte) (w h s : ℕ)
    (hlen : bytes.length = w * h * 3) :
    ∃ out, apply_gaussian_rgb bytes w h s = Except.ok out ∧
      out = vertPass
          (horizPass bytes w h (generate_gaussian_kernel (max ((s : ℝ) / 10) 0.1)).1
            (generate_gaussian_kernel (max ((s : ℝ) / 10) 0.1)).2) w h
          (generate_gaussian_kernel (max ((s : ℝ) / 10) 0.1)).1
          (generate_gaussian_kernel (max ((s : ℝ) / 10) 0.1)).2 ∧
      out.length = bytes.length ∧
      (∀ i, i < h * w * 3 →
        (horizPass bytes w h (generate_gaussian_kernel (max ((s : ℝ) / 10) 0.1)).1
            (generate_gaussian_kernel (max ((s : ℝ) / 10) 0.1)).2).getD i 0 =
          clampToByte (hsum bytes w (generate_gaussian_kernel (max ((s : ℝ) / 10) 0.1)).1
            (generate_gaussian_kernel (max ((s : ℝ) / 10) 0.1)).2
            (i / 3 % w) (i / 3 / w) (i % 3))) ∧
      (∀ i, i < h * w * 3 →
        (out.getD i 0).val =
          ⌊rclamp (vsum (horizPass bytes w h
              (generate_gaussian_kernel (max ((s : ℝ) / 10) 0.1)).1
              (generate_gaussian_kernel (max ((s : ℝ) / 10) 0.1)).2) w h
              (generate_gaussian_kernel (max ((s : ℝ) / 10) 0.1)).1
              (generate_gaussian_kernel (max ((s : ℝ) / 10) 0.1)).2
              (i / 3 % w) (i / 3 / w) (i % 3)) 0 255⌋₊) ∧
      (∀ b ∈ out, b.val ≤ 255) := by
  have hmax : gaussian_sigma s = max ((s : ℝ) / 10) 0.1 := gaussian_sigma_eq_max s
  refine ⟨vertPass
      (horizPass bytes w h (generate_gaussian_kernel (max ((s : ℝ) / 10) 0.1)).1
        (generate_gaussian_kernel (max ((s : ℝ) / 10) 0.1)).2) w h
      (generate_gaussian_kernel (max ((s : ℝ) / 10) 0.1)).1
      (generate_gaussian_kernel (max ((s : ℝ) / 10) 0.1)).2, ?_, rfl, ?_, ?_, ?_, ?_⟩
  · unfold apply_gaussian_rgb
    rw [if_neg (by omega), hmax]
  · rw [vertPass_length, hlen, Nat.mul_comm h w]
  · intro i hi
    exact horizPass_getD _ _ _ _ _ i hi
  · intro i hi
    rw [vertPass_getD _ _ _ _ _ i hi, clampToByte_val]
  · intro b _
    have hb := b.isLt
    omega

/-- Witness for C2 on the 1-by-1 image `[0,0,0]` with strength 10. -/
theorem C2_gaussian_two_pass_witness :
    (([(0 : Byte), 0, 0] : List Byte).length = 1 * 1 * 3) ∧
    (∃ out, apply_gaussian_rgb [(0 : Byte), 0, 0] 1 1 10 = Except.ok out ∧
      out = vertPass
          (horizPass [(0 : Byte), 0, 0] 1 1
            (generate_gaussian_kernel (max (((10 : ℕ) : ℝ) / 10) 0.1)).1
            (generate_gaussian_kernel (max (((10 : ℕ) : ℝ) / 10) 0.1)).2) 1 1
          (generate_gaussian_kernel (max (((10 : ℕ) : ℝ) / 10) 0.1)).1
          (generate_gaussian_kernel (max (((10 : ℕ) : ℝ) / 10) 0.1)).2 ∧
      out.length = ([(0 : Byte), 0, 0] : List Byte).length ∧
      (∀ i, i < 1 * 1 * 3 →
        (horizPass [(0 : Byte), 0, 0] 1 1
            (generate_gaussian_kernel (max (((10 : ℕ) : ℝ) / 10) 0.1)).1
            (generate_gaussian_kernel (max (((10 : ℕ) : ℝ) / 10) 0.1)).2).getD i 0 =
          clampToByte (hsum [(0 : Byte), 0, 0] 1
            (generate_gaussian_kernel (max (((10 : ℕ) : ℝ) / 10) 0.1)).1
            (generate_gaussian_kernel (max (((10 : ℕ) : ℝ) / 10) 0.1)).2
            (i / 3 % 1) (i / 3 / 1) (i % 3))) ∧
      (∀ i, i < 1 * 1 * 3 →
        (out.getD i 0).val =
          ⌊rclamp (vsum (horizPass [(0 : Byte), 0, 0] 1 1
              (generate_gaussian_kernel (max (((10 : ℕ) : ℝ) / 10) 0.1)).1
              (generate_gaussian_kernel (max (((10 : ℕ) : ℝ) / 10) 0.1)).2) 1 1
              (generate_gaussian_kernel (max (((10 : ℕ) : ℝ) / 10) 0.1)).1
              (generate_gaussian_kernel (max (((10 : ℕ) : ℝ) / 10) 0.1)).2
              (i / 3 % 1) (i / 3 / 1) (i % 3)) 0 255⌋₊) ∧
      (∀ b ∈ out, b.val ≤ 255)) :=
  ⟨by decide, C2_gaussian_two_pass [(0 : Byte), 0, 0] 1 1 10 (by decide)⟩

/-- C8: blurring a uniform (flat-color) image returns it unchanged — with
exact real convolution arithmetic the equality is exact, because the
normalized kernel sums to 1 and every clamped sample replicates the same
pixel. -/
theorem C8_uniform_blur_noop (bytes : List Byte) (w h s : ℕ) (pix : ℕ → Byte)
    (hlen : bytes.length = w * h * 3)
    (hu : ∀ i, i < bytes.length → bytes.getD i 0 = pix (i % 3)) :
    ∃ out, apply_gaussian_rgb bytes w h s = Except.ok out ∧
      out.length = bytes.length ∧
      (∀ i, i < bytes.length → out.getD i 0 = bytes.getD i 0) := by
  have hcomm : h * w * 3 = w * h * 3 := by rw [Nat.mul_comm h w]
  have hK : ((generate_gaussian_kernel (gaussian_sigma s)).1).sum = 1 := kernel_sum_one _
  have htl : (horizPass bytes w h (generate_gaussian_kernel (gaussian_sigma s)).1
      (generate_gaussian_kernel (gaussian_sigma s)).2).length = w * h * 3 := by
    rw [horizPass_length]
    omega
  have htu : ∀ i, i < (horizPass bytes w h (generate_gaussian_kernel (gaussian_sigma s)).1
      (generate_gaussian_kernel (gaussian_sigma s)).2).length →
      (horizPass bytes w h (generate_gaussian_kernel (gaussian_sigma s)).1
        (generate_gaussian_kernel (gaussian_sigma s)).2).getD i 0 = pix (i % 3) := by
    intro i hi
    rw [htl] at hi
    exact horizPass_uniform bytes w h _ _ pix hK hlen hu i (by omega)
  refine ⟨vertPass (horizPass bytes w h (generate_gaussian_kernel (gaussian_sigma s)).1
      (generate_gaussian_kernel (gaussian_sigma s)).2) w h
      (generate_gaussian_kernel (gaussian_sigma s)).1
      (generate_gaussian_kernel (gaussian_sigma s)).2, ?_, ?_, ?_⟩
  · unfold apply_gaussian_rgb
    rw [if_neg (by omega)]
  · rw [vertPass_length, hlen]
    omega
  · intro i hi
    have hi' : i < h * w * 3 := by omega
    rw [vertPass_uniform _ w h _ _ pix hK htl htu i hi', hu i hi]

/-- Witness for C8 on the uniform 1-by-1 image `[10, 20, 30]`. -/
theorem C8_uniform_blur_noop_witness :
    (([(10 : Byte), 20, 30] : List Byte).length = 1 * 1 * 3) ∧
    (∀ i, i < ([(10 : Byte), 20, 30] : List Byte).length →
      [(10 : Byte), 20, 30].getD i 0 =
        (fun r => if r = 0 then (10 : Byte) else if r = 1 then 20 else 30) (i % 3)) ∧
    (∃ out, apply_gaussian_rgb [(10 : Byte), 20, 30] 1 1 0 = Except.ok out ∧
      out.length = ([(10 : Byte), 20, 30] : List Byte).length ∧
      (∀ i, i < ([(10 : Byte), 20, 30] : List Byte).length →
        out.getD i 0 = [(10 : Byte), 20, 30].getD i 0)) :=
  ⟨by decide, by decide,
    C8_uniform_blur_noop [(10 : Byte), 20, 30] 1 1 0
      (fun r => if r = 0 then (10 : Byte) else if r = 1 then 20 else 30)
      (by decide) (by decide)⟩
